import Mathlib

/-!
# Verification of the product catalog merge sort (src/5000.py)

Shallow embedding of the program: an `Item` record (`Producto`), the two-key
comparator `comparar_productos` (rating descending, then price ascending), the
divide-and-conquer `merge_sort` with its merge step `mezclar`, the reporting
routine `analizar_datos`, the loader `leer_csv` and the `main` pipeline.

Python `float` prices are modelled as exact rationals (`ℚ`); for finite IEEE
doubles, `x - y = 0` holds exactly when `x = y`, so the sign behaviour of the
comparator is preserved by this modelling.  Machine integers are modelled as
`ℤ` (Python integers are unbounded).  The filesystem seen by `leer_csv` is an
explicit parameter: `none` models a missing file, `some filas` a file whose
rows parsed into the given field tuples (malformed rows are out of scope per
the loader contract).  Exceptions (`ZeroDivisionError`, `KeyError`,
`IndexError`) are modelled with `Option`/`Except` error values.
-/

/-- The `Producto` class: one catalog entry with the five fields set in
`__init__`. -/
structure Producto where
  id : ℤ
  nombre : String
  precio : ℚ
  calificacion : ℤ
  stock : ℤ
deriving DecidableEq, Repr

/-- `comparar_productos`: negative when `a` goes before `b`, positive when `b`
goes before `a`, zero when tied.  First key: rating, higher first
(`b.calificacion - a.calificacion`); second key: price, lower first
(`a.precio - b.precio`); otherwise `0`.  The Python function returns an `int`
in the first branch and a `float` in the second; both are embedded in `ℚ`. -/
def comparar_productos (a b : Producto) : ℚ :=
  if a.calificacion ≠ b.calificacion then
    ((b.calificacion - a.calificacion : ℤ) : ℚ)
  else if a.precio ≠ b.precio then
    a.precio - b.precio
  else
    0

/-- `mezclar`: merge two sorted lists; while both are non-empty, emit the left
head when `comparar_productos` is `≤ 0`, otherwise the right head; then append
the remainder of whichever list is left. -/
def mezclar : List Producto → List Producto → List Producto
  | [], derecha => derecha
  | izquierda, [] => izquierda
  | x :: xs, y :: ys =>
    if comparar_productos x y ≤ 0 then
      x :: mezclar xs (y :: ys)
    else
      y :: mezclar (x :: xs) ys
termination_by izquierda derecha => izquierda.length + derecha.length

/-- `merge_sort`: lists of length at most 1 are returned unchanged; otherwise
split at `len // 2`, sort each half recursively and merge. -/
def merge_sort (productos : List Producto) : List Producto :=
  if productos.length ≤ 1 then
    productos
  else
    mezclar (merge_sort (productos.take (productos.length / 2)))
      (merge_sort (productos.drop (productos.length / 2)))
termination_by productos.length
decreasing_by
  all_goals simp [List.length_take, List.length_drop]
  all_goals omega

/-! ## Comparator characterisation -/

/-- `comparar_productos a b < 0` exactly when `a` strictly precedes `b`:
higher rating, or equal rating and strictly lower price. -/
theorem comparar_lt_zero_iff (a b : Producto) :
    comparar_productos a b < 0 ↔
      b.calificacion < a.calificacion ∨
        (a.calificacion = b.calificacion ∧ a.precio < b.precio) := by
  unfold comparar_productos
  split_ifs with h1 h2
  · simp only [Int.cast_lt_zero, sub_neg]
    constructor
    · exact fun h => Or.inl h
    · rintro (h | ⟨he, _⟩)
      · exact h
      · exact absurd he h1
  · push_neg at h1
    simp only [sub_neg]
    constructor
    · intro h
      exact Or.inr ⟨h1, h⟩
    · rintro (h | ⟨_, h⟩)
      · omega
      · exact h
  · push_neg at h1 h2
    simp only [lt_self_iff_false, false_iff]
    rintro (h | ⟨_, h⟩)
    · omega
    · rw [h2] at h
      exact absurd h (lt_irrefl _)

/-- `comparar_productos a b = 0` exactly when both keys tie. -/
theorem comparar_eq_zero_iff (a b : Producto) :
    comparar_productos a b = 0 ↔
      a.calificacion = b.calificacion ∧ a.precio = b.precio := by
  unfold comparar_productos
  split_ifs with h1 h2
  · constructor
    · intro h
      have h3 : (b.calificacion - a.calificacion : ℤ) = 0 := by exact_mod_cast h
      omega
    · rintro ⟨he, _⟩
      exact absurd he h1
  · constructor
    · intro h
      exact absurd (sub_eq_zero.mp h) h2
    · rintro ⟨_, hp⟩
      exact absurd hp h2
  · push_neg at h1 h2
    simp [h1, h2]

/-- `0 < comparar_productos a b` exactly when `b` strictly precedes `a`. -/
theorem comparar_pos_iff (a b : Producto) :
    0 < comparar_productos a b ↔
      a.calificacion < b.calificacion ∨
        (a.calificacion = b.calificacion ∧ b.precio < a.precio) := by
  unfold comparar_productos
  split_ifs with h1 h2
  · simp only [Int.cast_pos, sub_pos]
    constructor
    · exact fun h => Or.inl h
    · rintro (h | ⟨he, _⟩)
      · exact h
      · exact absurd he h1
  · push_neg at h1
    simp only [sub_pos]
    constructor
    · intro h
      exact Or.inr ⟨h1, h⟩
    · rintro (h | ⟨_, h⟩)
      · omega
      · exact h
  · push_neg at h1 h2
    simp only [lt_self_iff_false, false_iff]
    rintro (h | ⟨_, h⟩)
    · omega
    · rw [h2] at h
      exact absurd h (lt_irrefl _)

/-- Non-strict characterisation used by the merge step. -/
theorem comparar_nonpos_iff (a b : Producto) :
    comparar_productos a b ≤ 0 ↔
      b.calificacion < a.calificacion ∨
        (a.calificacion = b.calificacion ∧ a.precio ≤ b.precio) := by
  rw [le_iff_lt_or_eq, comparar_lt_zero_iff, comparar_eq_zero_iff]
  constructor
  · rintro ((h | ⟨he, hp⟩) | ⟨he, hp⟩)
    · exact Or.inl h
    · exact Or.inr ⟨he, le_of_lt hp⟩
    · exact Or.inr ⟨he, le_of_eq hp⟩
  · rintro (h | ⟨he, hp⟩)
    · exact Or.inl (Or.inl h)
    · rcases lt_or_eq_of_le hp with h2 | h2
      · exact Or.inl (Or.inr ⟨he, h2⟩)
      · exact Or.inr ⟨he, h2⟩

/-- Totality of the comparator order. -/
theorem comparar_total (a b : Producto) (h : ¬ comparar_productos a b ≤ 0) :
    comparar_productos b a ≤ 0 := by
  rw [comparar_nonpos_iff] at h ⊢
  push_neg at h
  obtain ⟨h1, h2⟩ := h
  rcases lt_trichotomy a.calificacion b.calificacion with hc | hc | hc
  · exact Or.inl hc
  · exact Or.inr ⟨hc.symm, le_of_lt (h2 hc)⟩
  · exact absurd h1 (not_le.mpr hc)

/-- Transitivity of the comparator order. -/
theorem comparar_trans (a b c : Producto) (hab : comparar_productos a b ≤ 0)
    (hbc : comparar_productos b c ≤ 0) : comparar_productos a c ≤ 0 := by
  rw [comparar_nonpos_iff] at hab hbc ⊢
  rcases hab with h1 | ⟨e1, p1⟩ <;> rcases hbc with h2 | ⟨e2, p2⟩
  · exact Or.inl (lt_trans h2 h1)
  · exact Or.inl (by omega)
  · exact Or.inl (by omega)
  · exact Or.inr ⟨e1.trans e2, le_trans p1 p2⟩

/-! ## Merge lemmas -/

/-- The merge of two lists is a permutation of their concatenation. -/
theorem mezclar_perm : ∀ xs ys : List Producto,
    List.Perm (mezclar xs ys) (xs ++ ys)
  | [], ys => by simp [mezclar]
  | x :: xs, [] => by simp [mezclar]
  | x :: xs, y :: ys => by
    rw [mezclar]
    split_ifs with h
    · exact List.Perm.cons x (mezclar_perm xs (y :: ys))
    · exact List.Perm.trans (List.Perm.cons y (mezclar_perm (x :: xs) ys))
        List.perm_middle.symm
termination_by xs ys => xs.length + ys.length

/-- Merging two sorted lists yields a sorted list. -/
theorem mezclar_pairwise : ∀ xs ys : List Producto,
    List.Pairwise (fun u v => comparar_productos u v ≤ 0) xs →
    List.Pairwise (fun u v => comparar_productos u v ≤ 0) ys →
    List.Pairwise (fun u v => comparar_productos u v ≤ 0) (mezclar xs ys)
  | [], ys, _, hys => by simpa [mezclar] using hys
  | x :: xs, [], hxs, _ => by simpa [mezclar] using hxs
  | x :: xs, y :: ys, hxs, hys => by
    rw [mezclar]
    split_ifs with h
    · refine List.pairwise_cons.mpr
        ⟨?_, mezclar_pairwise xs (y :: ys) (List.pairwise_cons.mp hxs).2 hys⟩
      intro z hz
      rcases List.mem_append.mp ((mezclar_perm xs (y :: ys)).mem_iff.mp hz) with hz3 | hz3
      · exact (List.pairwise_cons.mp hxs).1 z hz3
      · rcases List.mem_cons.mp hz3 with rfl | hz4
        · exact h
        · exact comparar_trans x y z h ((List.pairwise_cons.mp hys).1 z hz4)
    · have hyx : comparar_productos y x ≤ 0 := comparar_total x y h
      refine List.pairwise_cons.mpr
        ⟨?_, mezclar_pairwise (x :: xs) ys hxs (List.pairwise_cons.mp hys).2⟩
      intro z hz
      rcases List.mem_append.mp ((mezclar_perm (x :: xs) ys).mem_iff.mp hz) with hz3 | hz3
      · rcases List.mem_cons.mp hz3 with rfl | hz4
        · exact hyx
        · exact comparar_trans y x z hyx ((List.pairwise_cons.mp hxs).1 z hz4)
      · exact (List.pairwise_cons.mp hys).1 z hz3
termination_by xs ys _ _ => xs.length + ys.length

/-- Lists of length at most one are trivially sorted. -/
theorem pairwise_of_length_le_one (l : List Producto) (h : l.length ≤ 1) :
    List.Pairwise (fun u v => comparar_productos u v ≤ 0) l := by
  match l with
  | [] => exact List.Pairwise.nil
  | [a] => exact List.pairwise_singleton _ a
  | a :: b :: t => simp at h

/-- The output of `merge_sort` is pairwise ordered under the comparator. -/
theorem merge_sort_pairwise (l : List Producto) :
    List.Pairwise (fun u v => comparar_productos u v ≤ 0) (merge_sort l) := by
  induction l using merge_sort.induct with
  | case1 l h =>
    rw [merge_sort, if_pos h]
    exact pairwise_of_length_le_one l h
  | case2 l h ih1 ih2 =>
    rw [merge_sort, if_neg h]
    exact mezclar_pairwise _ _ ih1 ih2

/-- The output of `merge_sort` is a permutation of its input. -/
theorem merge_sort_perm_aux (l : List Producto) : List.Perm (merge_sort l) l := by
  induction l using merge_sort.induct with
  | case1 l h =>
    rw [merge_sort, if_pos h]
  | case2 l h ih1 ih2 =>
    rw [merge_sort, if_neg h]
    have h3 : List.take (l.length / 2) l ++ List.drop (l.length / 2) l = l :=
      List.take_append_drop _ l
    exact ((mezclar_perm _ _).trans (ih1.append ih2)).trans (by rw [h3])

/-! ## Stability -/

/-- Merging keeps every tie class (fixed rating and price) in order: all its
members coming from the sorted left list are emitted before those of the right
list, because the merge takes the left head on `comparar_productos ≤ 0`. -/
theorem mezclar_filter (c : ℤ) (p : ℚ) : ∀ xs ys : List Producto,
    List.Pairwise (fun u v => comparar_productos u v ≤ 0) xs →
    List.filter (fun x => decide (x.calificacion = c ∧ x.precio = p)) (mezclar xs ys) =
      List.filter (fun x => decide (x.calificacion = c ∧ x.precio = p)) xs ++
        List.filter (fun x => decide (x.calificacion = c ∧ x.precio = p)) ys
  | [], ys, _ => by simp [mezclar]
  | x :: xs, [], _ => by simp [mezclar]
  | x :: xs, y :: ys, hxs => by
    rw [mezclar]
    split_ifs with h
    · have ih := mezclar_filter c p xs (y :: ys) (List.pairwise_cons.mp hxs).2
      simp only [List.filter_cons, ih]
      split_ifs <;> simp
    · have ih := mezclar_filter c p (x :: xs) ys hxs
      simp only [List.filter_cons, ih]
      by_cases hty : decide (y.calificacion = c ∧ y.precio = p) = true
      · have hy := of_decide_eq_true hty
        have hx_none : ∀ z ∈ x :: xs,
            ¬ decide (z.calificacion = c ∧ z.precio = p) = true := by
          intro z hz hzt
          have hzk := of_decide_eq_true hzt
          have hzy : comparar_productos z y = 0 :=
            (comparar_eq_zero_iff z y).mpr ⟨hzk.1.trans hy.1.symm, hzk.2.trans hy.2.symm⟩
          rcases List.mem_cons.mp hz with rfl | hz4
          · exact h (le_of_eq hzy)
          · exact h (comparar_trans x z y
              ((List.pairwise_cons.mp hxs).1 z hz4) (le_of_eq hzy))
        have hxf : decide (x.calificacion = c ∧ x.precio = p) = false :=
          eq_false_of_ne_true (hx_none x (List.mem_cons_self x xs))
        have hxsf : List.filter
            (fun z => decide (z.calificacion = c ∧ z.precio = p)) xs = [] := by
          rw [List.filter_eq_nil_iff]
          intro z hz
          exact hx_none z (List.mem_cons_of_mem x hz)
        rw [if_pos hty, if_neg (by simp [hxf]), hxsf]
        simp [hy.1, hy.2]
      · simp [hty]
termination_by xs ys _ => xs.length + ys.length

/-- `merge_sort` preserves each tie class as a subsequence, in input order. -/
theorem merge_sort_filter_aux (c : ℤ) (p : ℚ) (l : List Producto) :
    List.filter (fun x => decide (x.calificacion = c ∧ x.precio = p)) (merge_sort l) =
      List.filter (fun x => decide (x.calificacion = c ∧ x.precio = p)) l := by
  induction l using merge_sort.induct with
  | case1 l h => rw [merge_sort, if_pos h]
  | case2 l h ih1 ih2 =>
    rw [merge_sort, if_neg h]
    rw [mezclar_filter c p _ _ (merge_sort_pairwise _), ih1, ih2,
      ← List.filter_append, List.take_append_drop]

/-! ## Idempotence -/

/-- When every left element precedes every right element the merge is plain
concatenation. -/
theorem mezclar_all_left : ∀ xs ys : List Producto,
    (∀ x ∈ xs, ∀ y ∈ ys, comparar_productos x y ≤ 0) →
    mezclar xs ys = xs ++ ys
  | [], ys, _ => by simp [mezclar]
  | x :: xs, [], _ => by simp [mezclar]
  | x :: xs, y :: ys, hcross => by
    rw [mezclar, if_pos (hcross x (List.mem_cons_self x xs) y (List.mem_cons_self y ys))]
    rw [mezclar_all_left xs (y :: ys) (fun u hu v hv => hcross u (List.mem_cons_of_mem x hu) v hv)]
    rfl
termination_by xs ys _ => xs.length + ys.length

/-- Sorting a pairwise-ordered list returns it unchanged. -/
theorem merge_sort_of_pairwise (l : List Producto) :
    List.Pairwise (fun u v => comparar_productos u v ≤ 0) l → merge_sort l = l := by
  induction l using merge_sort.induct with
  | case1 l h =>
    intro _
    rw [merge_sort, if_pos h]
  | case2 l h ih1 ih2 =>
    intro hp
    rw [merge_sort, if_neg h]
    have hsplit := List.take_append_drop (l.length / 2) l
    obtain ⟨hptake, hpdrop, hcross⟩ := List.pairwise_append.mp (by rw [hsplit]; exact hp)
    rw [ih1 hptake, ih2 hpdrop, mezclar_all_left _ _ hcross, hsplit]

/-- Adjacent ordering implies pairwise ordering, by transitivity. -/
theorem chain'_imp_pairwise (l : List Producto)
    (hc : List.Chain' (fun u v => comparar_productos u v ≤ 0) l) :
    List.Pairwise (fun u v => comparar_productos u v ≤ 0) l := by
  induction l with
  | nil => exact List.Pairwise.nil
  | cons a t ih =>
    rcases t with _ | ⟨b, t2⟩
    · exact List.pairwise_singleton _ _
    · rw [List.chain'_cons] at hc
      have hp := ih hc.2
      refine List.pairwise_cons.mpr ⟨?_, hp⟩
      intro z hz
      rcases List.mem_cons.mp hz with rfl | hz2
      · exact hc.1
      · exact comparar_trans a b z hc.1 ((List.pairwise_cons.mp hp).1 z hz2)

/-! ## Reporting: `analizar_datos` -/

/-- Exceptions the pipeline can raise: `KeyError` from the fixed-key
histogram dict, `ZeroDivisionError` from the percentage computation,
`IndexError` from `productos[i]` in `main`. -/
inductive ErrorEjecucion where
  | keyError
  | zeroDivision
  | indexError
deriving DecidableEq, Repr

/-- One `calificaciones[k] += 1` on the association list modelling the dict;
`none` models the `KeyError` raised when `k` is not among the keys. -/
def incrementa : List (ℤ × ℕ) → ℤ → Option (List (ℤ × ℕ))
  | [], _ => none
  | (k0, v) :: resto, k =>
    if k0 = k then
      some ((k0, v + 1) :: resto)
    else
      match incrementa resto k with
      | none => none
      | some resto2 => some ((k0, v) :: resto2)

/-- The dict literal `{1: 0, 2: 0, 3: 0, 4: 0, 5: 0}`. -/
def conteoInicial : List (ℤ × ℕ) := [(1, 0), (2, 0), (3, 0), (4, 0), (5, 0)]

/-- The counting loop `for producto in productos: calificaciones[...] += 1`. -/
def cuentaDesde : List (ℤ × ℕ) → List Producto → Option (List (ℤ × ℕ))
  | d, [] => some d
  | d, p :: resto =>
    match incrementa d p.calificacion with
    | none => none
    | some d2 => cuentaDesde d2 resto

/-- Python `min(lista, key=precio)`: walk the tail keeping the current
minimum, replacing it only on strictly smaller price (first minimum wins). -/
def masBaratoDesde : Producto → List Producto → Producto
  | actual, [] => actual
  | actual, p :: resto =>
    masBaratoDesde (if p.precio < actual.precio then p else actual) resto

/-- The data `analizar_datos` derives: the histogram, the percentage per
rating (iterated in `sorted(..., reverse=True)` order, i.e. rating 5 first),
the number of 5-star items and, when any exist, the cheapest of them. -/
structure Analisis where
  conteo : List (ℤ × ℕ)
  porcentajes : List (ℤ × ℚ)
  cincoEstrellas : ℕ
  masBarato : Option Producto
deriving DecidableEq, Repr

/-- `analizar_datos`: count ratings into the fixed five-key dict (`KeyError`
on a rating outside 1..5); then for each of the five entries print
`cantidad / len(productos) * 100`, which raises `ZeroDivisionError` whenever
the input is empty (the loop always runs); then the 5-star subset and its
cheapest member. -/
def analizar_datos (productos : List Producto) : Except ErrorEjecucion Analisis :=
  match cuentaDesde conteoInicial productos with
  | none => Except.error ErrorEjecucion.keyError
  | some conteo =>
    if productos.length = 0 then
      Except.error ErrorEjecucion.zeroDivision
    else
      let porcentajes := conteo.reverse.map
        (fun par => (par.1, (par.2 : ℚ) / (productos.length : ℚ) * 100))
      let cinco := productos.filter (fun p => decide (p.calificacion = 5))
      let masBarato :=
        match cinco with
        | [] => none
        | q :: resto => some (masBaratoDesde q resto)
      Except.ok ⟨conteo, porcentajes, cinco.length, masBarato⟩

/-! ## Loader and pipeline: `leer_csv` and `main` -/

/-- A parsed CSV row: the `id, nombre, precio, calificacion, stock` fields.
Malformed rows are a loader-level fault outside the core contract, so rows
are modelled already parsed. -/
abbrev Fila := ℤ × String × ℚ × ℤ × ℤ

/-- `leer_csv` over an explicit filesystem: `none` models `FileNotFoundError`
(caught: the function reports and returns the accumulator, still empty),
`some filas` a readable file whose rows construct one `Producto` each. -/
def leer_csv (archivo : Option (List Fila)) : List Producto :=
  match archivo with
  | none => []
  | some filas =>
    filas.map (fun f => ⟨f.1, f.2.1, f.2.2.1, f.2.2.2.1, f.2.2.2.2⟩)

/-- Outcome of `main`: early return after the empty check, an uncaught
exception, or the completed pipeline with the sorted catalog. -/
inductive ResultadoMain where
  | abortado
  | excepcion (e : ErrorEjecucion)
  | completado (ordenados : List Producto)
deriving DecidableEq, Repr

/-- `main`: read, abort when nothing was read, print the first five unsorted
items (`IndexError` when fewer than five), analyse, sort, report and save.
(`Programa.main`: a bare `main` is reserved by Lean for executables.) -/
def Programa.main (archivo : Option (List Fila)) : ResultadoMain :=
  let productos := leer_csv archivo
  if productos.isEmpty then
    ResultadoMain.abortado
  else if productos.length < 5 then
    ResultadoMain.excepcion ErrorEjecucion.indexError
  else
    match analizar_datos productos with
    | Except.error e => ResultadoMain.excepcion e
    | Except.ok _ => ResultadoMain.completado (merge_sort productos)

/-! ## Concrete scenario of the spec -/

def productoA : Producto := ⟨1, "A", 10, 3, 5⟩

def productoB : Producto := ⟨2, "B", 5, 5, 2⟩

def productoC : Producto := ⟨3, "C", 20, 5, 1⟩

def productoD : Producto := ⟨4, "D", 8, 3, 9⟩

def escenario : List Producto := [productoA, productoB, productoC, productoD]

/-! ## Histogram counting domain -/

/-- `incrementa` succeeds exactly when the key is present in the dict. -/
theorem incrementa_isSome_iff (d : List (ℤ × ℕ)) (k : ℤ) :
    (incrementa d k).isSome ↔ k ∈ d.map Prod.fst := by
  induction d with
  | nil => simp [incrementa]
  | cons par resto ih =>
    obtain ⟨k0, v⟩ := par
    by_cases h : k0 = k
    · simp [incrementa, h]
    · cases hrec : incrementa resto k with
      | none =>
        rw [hrec] at ih
        simp only [incrementa, if_neg h, hrec]
        simp only [Option.isSome_none] at ih ⊢
        simp only [List.map_cons, List.mem_cons]
        constructor
        · intro hfalse
          exact absurd hfalse (by simp)
        · rintro (rfl | hm)
          · exact absurd rfl h
          · exact absurd (ih.mpr hm) (by simp)
      | some d2 =>
        rw [hrec] at ih
        simp only [incrementa, if_neg h, hrec]
        simp only [Option.isSome_some, true_iff] at ih ⊢
        simp [List.mem_cons, ih]

/-- `incrementa` never changes the key set of the dict. -/
theorem incrementa_keys (d : List (ℤ × ℕ)) (k : ℤ) :
    ∀ d2, incrementa d k = some d2 → d2.map Prod.fst = d.map Prod.fst := by
  induction d with
  | nil =>
    intro d2 h
    simp [incrementa] at h
  | cons par resto ih =>
    obtain ⟨k0, v⟩ := par
    intro d2 h
    simp only [incrementa] at h
    by_cases hk : k0 = k
    · rw [if_pos hk] at h
      simp only [Option.some.injEq] at h
      subst h
      simp
    · rw [if_neg hk] at h
      cases hrec : incrementa resto k with
      | none =>
        rw [hrec] at h
        exact absurd h (by simp)
      | some r2 =>
        rw [hrec] at h
        simp only [Option.some.injEq] at h
        subst h
        simp [ih r2 hrec]

/-- The counting loop succeeds exactly when every rating is a key of the
dict it starts from. -/
theorem cuentaDesde_isSome_iff (l : List Producto) :
    ∀ d : List (ℤ × ℕ),
      (cuentaDesde d l).isSome ↔ ∀ p ∈ l, p.calificacion ∈ d.map Prod.fst := by
  induction l with
  | nil => intro d; simp [cuentaDesde]
  | cons p resto ih =>
    intro d
    cases hinc : incrementa d p.calificacion with
    | none =>
      have h1 := incrementa_isSome_iff d p.calificacion
      rw [hinc] at h1
      simp only [Option.isSome_none] at h1
      have h2 : ¬ p.calificacion ∈ d.map Prod.fst := fun hm => by
        have := h1.mpr hm
        simp at this
      simp only [cuentaDesde, hinc, Option.isSome_none]
      constructor
      · intro hfalse
        exact absurd hfalse (by simp)
      · intro hall
        exact absurd (hall p (List.mem_cons_self p resto)) h2
    | some d2 =>
      have hkeys := incrementa_keys d p.calificacion d2 hinc
      have h1 := incrementa_isSome_iff d p.calificacion
      rw [hinc] at h1
      simp only [Option.isSome_some, true_iff] at h1
      simp only [cuentaDesde, hinc]
      rw [ih d2]
      constructor
      · intro hall q hq
        rcases List.mem_cons.mp hq with rfl | hq2
        · exact h1
        · rw [← hkeys]
          exact hall q hq2
      · intro hall q hq
        rw [hkeys]
        exact hall q (List.mem_cons_of_mem p hq)

/-! ## Store-level model

To state that sorting and reporting mutate nothing, the Items live in an
explicit store (the heap) and the sequences hold references into it, exactly
as Python shares the `Producto` objects between lists.  Every operation is
translated with the store threaded through each step that reads an Item, and
returns the store in which it finished; absence of mutation is the theorem
that the returned store is the initial one. -/

abbrev Ref := ℕ

abbrev Almacen := List Producto

def productoDefecto : Producto := ⟨0, "", 0, 0, 0⟩

/-- Dereference an Item: read the object a list slot points to. -/
def lee (s : Almacen) (r : Ref) : Producto := s.getD r productoDefecto

/-- `comparar_productos` on two references: reads both Items and returns the
store it leaves behind (the source only reads attributes). -/
def compararRefs (s : Almacen) (i j : Ref) : ℚ × Almacen :=
  (comparar_productos (lee s i) (lee s j), s)

/-- `mezclar` at the store level. -/
def mezclarS : Almacen → List Ref → List Ref → List Ref × Almacen
  | s, [], derecha => (derecha, s)
  | s, izquierda, [] => (izquierda, s)
  | s, i :: is, j :: js =>
    let par := compararRefs s i j
    if par.1 ≤ 0 then
      let resto := mezclarS par.2 is (j :: js)
      (i :: resto.1, resto.2)
    else
      let resto := mezclarS par.2 (i :: is) js
      (j :: resto.1, resto.2)
termination_by _ a b => a.length + b.length

/-- `merge_sort` at the store level. -/
def merge_sortS (s : Almacen) (productos : List Ref) : List Ref × Almacen :=
  if productos.length ≤ 1 then
    (productos, s)
  else
    let izq := merge_sortS s (productos.take (productos.length / 2))
    let der := merge_sortS izq.2 (productos.drop (productos.length / 2))
    mezclarS der.2 izq.1 der.1
termination_by productos.length
decreasing_by
  all_goals simp [List.length_take, List.length_drop]
  all_goals omega

/-- The counting loop of `analizar_datos` at the store level. -/
def cuentaDesdeS : Almacen → List (ℤ × ℕ) → List Ref → Option (List (ℤ × ℕ)) × Almacen
  | s, d, [] => (some d, s)
  | s, d, r :: resto =>
    match incrementa d (lee s r).calificacion with
    | none => (none, s)
    | some d2 => cuentaDesdeS s d2 resto

/-- The 5-star list comprehension at the store level. -/
def filtraCincoS : Almacen → List Ref → List Ref × Almacen
  | s, [] => ([], s)
  | s, r :: resto =>
    let cola := filtraCincoS s resto
    (if (lee s r).calificacion = 5 then r :: cola.1 else cola.1, cola.2)

/-- `min(..., key=precio)` at the store level. -/
def masBaratoDesdeS : Almacen → Ref → List Ref → Ref × Almacen
  | s, actual, [] => (actual, s)
  | s, actual, r :: resto =>
    masBaratoDesdeS s (if (lee s r).precio < (lee s actual).precio then r else actual) resto

/-- `analizar_datos` at the store level (the printed numbers are dropped;
the store traffic and the error cases are kept). -/
def analizar_datosS (s : Almacen) (productos : List Ref) :
    Except ErrorEjecucion Unit × Almacen :=
  let conteo := cuentaDesdeS s conteoInicial productos
  match conteo.1 with
  | none => (Except.error ErrorEjecucion.keyError, conteo.2)
  | some _ =>
    if productos.length = 0 then
      (Except.error ErrorEjecucion.zeroDivision, conteo.2)
    else
      let cinco := filtraCincoS conteo.2 productos
      match cinco.1 with
      | [] => (Except.ok (), cinco.2)
      | q :: resto =>
        let mb := masBaratoDesdeS cinco.2 q resto
        (Except.ok (), mb.2)

/-- The store-level merge leaves the store untouched. -/
theorem mezclarS_almacen : ∀ (s : Almacen) (a b : List Ref), (mezclarS s a b).2 = s
  | s, [], ds => by simp [mezclarS]
  | s, i :: is, [] => by simp [mezclarS]
  | s, i :: is, j :: js => by
    rw [mezclarS]
    simp only [compararRefs]
    split_ifs with h
    · simpa using mezclarS_almacen s is (j :: js)
    · simpa using mezclarS_almacen s (i :: is) js
termination_by _ a b => a.length + b.length

/-- The store-level sort leaves the store untouched. -/
theorem merge_sortS_almacen : ∀ (s : Almacen) (refs : List Ref),
    (merge_sortS s refs).2 = s
  | s, refs => by
    rw [merge_sortS]
    split_ifs with h
    · rfl
    · have ih1 := merge_sortS_almacen s (refs.take (refs.length / 2))
      have ih2 := merge_sortS_almacen (merge_sortS s (refs.take (refs.length / 2))).2
        (refs.drop (refs.length / 2))
      simp only [mezclarS_almacen]
      rw [ih2, ih1]
termination_by _ refs => refs.length
decreasing_by
  all_goals simp [List.length_take, List.length_drop]
  all_goals omega

/-- The store-level counting loop leaves the store untouched. -/
theorem cuentaDesdeS_almacen : ∀ (s : Almacen) (d : List (ℤ × ℕ)) (rs : List Ref),
    (cuentaDesdeS s d rs).2 = s
  | s, d, [] => by simp [cuentaDesdeS]
  | s, d, r :: resto => by
    rw [cuentaDesdeS]
    cases hinc : incrementa d (lee s r).calificacion with
    | none => simp
    | some d2 => simpa using cuentaDesdeS_almacen s d2 resto

/-- The store-level 5-star filter leaves the store untouched. -/
theorem filtraCincoS_almacen : ∀ (s : Almacen) (rs : List Ref),
    (filtraCincoS s rs).2 = s
  | s, [] => by simp [filtraCincoS]
  | s, r :: resto => by
    rw [filtraCincoS]
    simpa using filtraCincoS_almacen s resto

/-- The store-level minimum search leaves the store untouched. -/
theorem masBaratoDesdeS_almacen : ∀ (s : Almacen) (q : Ref) (rs : List Ref),
    (masBaratoDesdeS s q rs).2 = s
  | s, q, [] => by simp [masBaratoDesdeS]
  | s, q, r :: resto => by
    rw [masBaratoDesdeS]
    exact masBaratoDesdeS_almacen s _ resto

/-- The store-level reporting leaves the store untouched. -/
theorem analizar_datosS_almacen (s : Almacen) (refs : List Ref) :
    (analizar_datosS s refs).2 = s := by
  rw [analizar_datosS]
  cases hc : (cuentaDesdeS s conteoInicial refs).1 with
  | none => simpa using cuentaDesdeS_almacen s conteoInicial refs
  | some d =>
    simp only []
    split_ifs with hlen
    · simpa using cuentaDesdeS_almacen s conteoInicial refs
    · cases hf : (filtraCincoS (cuentaDesdeS s conteoInicial refs).2 refs).1 with
      | nil =>
        simp only [hf]
        rw [filtraCincoS_almacen, cuentaDesdeS_almacen]
      | cons q resto =>
        simp only [hf]
        rw [masBaratoDesdeS_almacen, filtraCincoS_almacen, cuentaDesdeS_almacen]

/-! ## Remaining helper lemmas -/

/-- Base case equation of `merge_sort`. -/
theorem merge_sort_base (l : List Producto) (h : l.length ≤ 1) : merge_sort l = l := by
  rw [merge_sort, if_pos h]

/-- `analizar_datos` reports the `KeyError` exactly when the counting loop
fails. -/
theorem analizar_datos_keyError_iff (l : List Producto) :
    analizar_datos l = Except.error ErrorEjecucion.keyError ↔
      cuentaDesde conteoInicial l = none := by
  rw [analizar_datos]
  rcases hc : cuentaDesde conteoInicial l with _ | d
  · simp
  · simp only []
    split_ifs with h
    · simp
    · simp

/-! ## Claims -/

/-- Claim C1: for every list of Items, the output of `merge_sort` is sorted
under the comparator: for every adjacent pair `(x, y)` of the output,
`comparar_productos x y ≤ 0` (Before or Equal). -/
theorem merge_sort_ordenado (l : List Producto) :
    List.Chain' (fun x y => comparar_productos x y ≤ 0) (merge_sort l) :=
  (merge_sort_pairwise l).chain'

/-- Claim C2: `merge_sort` is stable.  For every tie class — a fixed rating
`c` and price `p` — the Items of that class appear in the output in exactly
the order they had in the input (the two lists filtered to the class are
equal, which for every pair of tied Items makes their relative order in the
output that of the input).  This rests on the merge emitting the left head
whenever the comparator reports Before or Equal. -/
theorem merge_sort_estable (l : List Producto) (c : ℤ) (p : ℚ) :
    (merge_sort l).filter (fun x => decide (x.calificacion = c ∧ x.precio = p)) =
      l.filter (fun x => decide (x.calificacion = c ∧ x.precio = p)) :=
  merge_sort_filter_aux c p l

/-- Claim C3: for every list of Items the output of `merge_sort` is a
permutation of the input — same multiset, same length, nothing duplicated,
nothing lost. -/
theorem merge_sort_permutacion (l : List Producto) :
    List.Perm (merge_sort l) l ∧ (merge_sort l).length = l.length :=
  ⟨merge_sort_perm_aux l, (merge_sort_perm_aux l).length_eq⟩

/-- Claim C4 (code bug): contrary to the claim, `analizar_datos` on the
empty sequence does hit the division fault: the percentage loop always runs
over the five fixed dict entries and divides by `len(productos)`, so the
empty input raises `ZeroDivisionError` instead of emitting zero percentages
or refusing cleanly. -/
theorem analizar_datos_lista_vacia :
    analizar_datos [] = Except.error ErrorEjecucion.zeroDivision := rfl

/-- Claim C5: the sign of `comparar_productos a b` is negative exactly when
`a.calificacion > b.calificacion`, or ratings tie and `a.precio < b.precio`;
zero exactly when both rating and price tie (and the price subtraction is
never zero for unequal prices); positive otherwise. -/
theorem comparar_productos_signos (a b : Producto) :
    (comparar_productos a b < 0 ↔
      b.calificacion < a.calificacion ∨
        (a.calificacion = b.calificacion ∧ a.precio < b.precio)) ∧
    (comparar_productos a b = 0 ↔
      a.calificacion = b.calificacion ∧ a.precio = b.precio) ∧
    (a.precio ≠ b.precio → a.precio - b.precio ≠ 0) ∧
    (0 < comparar_productos a b ↔
      a.calificacion < b.calificacion ∨
        (a.calificacion = b.calificacion ∧ b.precio < a.precio)) :=
  ⟨comparar_lt_zero_iff a b, comparar_eq_zero_iff a b, sub_ne_zero_of_ne,
    comparar_pos_iff a b⟩

/-- Claim C6: on the concrete four-Item scenario of the spec, `merge_sort`
returns the Items in id order 2, 3, 4, 1 (rating 5 before rating 3; within
rating 5 price 5.0 before 20.0; within rating 3 price 8.0 before 10.0). -/
theorem merge_sort_escenario :
    (merge_sort escenario).map Producto.id = [2, 3, 4, 1] := by
  have e1 : merge_sort [productoA, productoB] =
      mezclar (merge_sort [productoA]) (merge_sort [productoB]) := by
    rw [merge_sort, if_neg (by norm_num)]
    rfl
  have e2 : merge_sort [productoC, productoD] =
      mezclar (merge_sort [productoC]) (merge_sort [productoD]) := by
    rw [merge_sort, if_neg (by norm_num)]
    rfl
  have e0 : merge_sort escenario =
      mezclar (merge_sort [productoA, productoB]) (merge_sort [productoC, productoD]) := by
    rw [show escenario = [productoA, productoB, productoC, productoD] from rfl,
      merge_sort, if_neg (by norm_num)]
    rfl
  rw [e0, e1, e2, merge_sort_base [productoA] (by norm_num),
    merge_sort_base [productoB] (by norm_num), merge_sort_base [productoC] (by norm_num),
    merge_sort_base [productoD] (by norm_num)]
  norm_num [mezclar, comparar_productos, productoA, productoB, productoC, productoD]

/-- Claim C7: `merge_sort` is idempotent — every list already sorted under
the comparator (adjacent pairs Before or Equal) is returned identically. -/
theorem merge_sort_idempotente (l : List Producto)
    (h : List.Chain' (fun x y => comparar_productos x y ≤ 0) l) :
    merge_sort l = l :=
  merge_sort_of_pairwise l (chain'_imp_pairwise l h)

/-- Witness for claim C7 at a concrete sorted two-Item list. -/
theorem merge_sort_idempotente_witness :
    List.Chain' (fun x y => comparar_productos x y ≤ 0) [productoB, productoA] ∧
      merge_sort [productoB, productoA] = [productoB, productoA] := by
  have hc : List.Chain' (fun x y => comparar_productos x y ≤ 0) [productoB, productoA] := by
    refine List.chain'_cons.mpr ⟨?_, List.chain'_singleton _⟩
    norm_num [comparar_productos, productoA, productoB]
  exact ⟨hc, merge_sort_idempotente _ hc⟩

/-- Claim C8: sorting and reporting mutate nothing.  With the Items held in
an explicit store and both operations translated store-passing, the store
each returns is the one it received: no Item field changes, and the input
sequence of references (a value the operations never rebind) is intact. -/
theorem ordenar_analizar_sin_mutacion (s : Almacen) (refs : List Ref) :
    (merge_sortS s refs).2 = s ∧ (analizar_datosS s refs).2 = s :=
  ⟨merge_sortS_almacen s refs, analizar_datosS_almacen s refs⟩

/-- Claim C9: on a missing input file `leer_csv` recovers with the empty
sequence (the `FileNotFoundError` is caught and reported, not re-raised),
and `main` then takes the emptiness check and aborts before sorting. -/
theorem leer_csv_archivo_faltante :
    leer_csv none = [] ∧ Programa.main none = ResultadoMain.abortado :=
  ⟨rfl, rfl⟩

/-- Claim C10: the histogram counting step of `analizar_datos` is total
exactly under the rating-domain invariant: it succeeds when every rating is
in {1,2,3,4,5}, and the `KeyError` surfaces exactly when some rating is
outside that fixed key set. -/
theorem conteo_dominio (l : List Producto) :
    ((cuentaDesde conteoInicial l).isSome ↔
      ∀ p ∈ l, p.calificacion = 1 ∨ p.calificacion = 2 ∨ p.calificacion = 3 ∨
        p.calificacion = 4 ∨ p.calificacion = 5) ∧
    (analizar_datos l = Except.error ErrorEjecucion.keyError ↔
      ¬ ∀ p ∈ l, p.calificacion = 1 ∨ p.calificacion = 2 ∨ p.calificacion = 3 ∨
        p.calificacion = 4 ∨ p.calificacion = 5) := by
  have hiff : (cuentaDesde conteoInicial l).isSome ↔
      ∀ p ∈ l, p.calificacion = 1 ∨ p.calificacion = 2 ∨ p.calificacion = 3 ∨
        p.calificacion = 4 ∨ p.calificacion = 5 := by
    rw [cuentaDesde_isSome_iff l conteoInicial]
    refine forall_congr' fun p => ?_
    refine forall_congr' fun hp => ?_
    simp [conteoInicial]
  refine ⟨hiff, ?_⟩
  rw [analizar_datos_keyError_iff, ← hiff]
  constructor
  · intro h
    rw [h]
    simp
  · intro h
    rcases hx : cuentaDesde conteoInicial l with _ | d
    · rfl
    · rw [hx] at h
      simp at h
